import Mathlib

/-!
Verification of the scheduling core of the nextjs-daypilot-alternative
repository, shallowly embedded in Lean.

Calendar-day keys (YYYY-MM-DD strings in the source) are modelled as
integers counting days; the lexicographic order on well-formed day keys
agrees with the integer order, and the dayjs / Date arithmetic that the
source performs on those keys (adding and subtracting whole days) is
exactly integer arithmetic.  Resource and booking ids that the source
only compares for equality are modelled as naturals; the booking id that
the filter engine searches as a string is modelled as a list of
characters.
-/

set_option autoImplicit false

namespace Scheduler

/-- Timeline model, from src/utils/dateUtils.js: generateDateRange builds
the list start, start+1, ..., start+days-1 of consecutive day keys. -/
def generateDateRange (days : Nat) (start : Int) : List Int :=
  (List.range days).map (fun (i : Nat) => start + (i : Int))

/-- JavaScript Array.prototype.findIndex: first index satisfying the
predicate, or -1 when there is none. -/
def findIndexInt (p : Int → Bool) : List Int → Int
  | [] => -1
  | x :: xs =>
    if p x then 0
    else
      let r := findIndexInt p xs
      if r = -1 then -1 else r + 1

/-- getDateIndex from src/utils/dateUtils.js: dates.findIndex(d => d === dateStr). -/
def getDateIndex (d : Int) (dates : List Int) : Int :=
  findIndexInt (fun x => decide (x = d)) dates

theorem generateDateRange_zero (d0 : Int) : generateDateRange 0 d0 = [] := rfl

theorem generateDateRange_succ (n : Nat) (d0 : Int) :
    generateDateRange (n + 1) d0 = d0 :: generateDateRange n (d0 + 1) := by
  unfold generateDateRange
  rw [List.range_succ_eq_map]
  simp only [List.map_cons, List.map_map, Nat.cast_zero, add_zero]
  congr 1
  apply List.map_congr_left
  intro a _
  simp only [Function.comp_apply, Nat.cast_succ]
  ring

theorem getDateIndex_nil (d : Int) : getDateIndex d [] = -1 := rfl

theorem findIndexInt_cons (p : Int → Bool) (x : Int) (xs : List Int) :
    findIndexInt p (x :: xs) =
      if p x then 0
      else if findIndexInt p xs = -1 then -1 else findIndexInt p xs + 1 := rfl

theorem getDateIndex_cons (d x : Int) (xs : List Int) :
    getDateIndex d (x :: xs) =
      if x = d then 0
      else if getDateIndex d xs = -1 then -1 else getDateIndex d xs + 1 := by
  unfold getDateIndex
  rw [findIndexInt_cons]
  by_cases h : x = d <;> simp [h]

/-- Index characterization over a generated window: a day key is found at
offset d - d0 exactly when it lies inside the window. -/
theorem getDateIndex_generateDateRange (n : Nat) (d0 d : Int) :
    getDateIndex d (generateDateRange n d0) =
      if d0 ≤ d ∧ d < d0 + n then d - d0 else -1 := by
  induction n generalizing d0 with
  | zero =>
    rw [generateDateRange_zero, getDateIndex_nil, if_neg]
    omega
  | succ n ih =>
    rw [generateDateRange_succ, getDateIndex_cons, ih]
    push_cast
    split_ifs <;> omega

theorem length_generateDateRange (n : Nat) (d0 : Int) :
    (generateDateRange n d0).length = n := by
  simp [generateDateRange]

theorem head?_generateDateRange_succ (n : Nat) (d0 : Int) :
    (generateDateRange (n + 1) d0).head? = some d0 := by
  rw [generateDateRange_succ]
  rfl

theorem generateDateRange_concat (n : Nat) (d0 : Int) :
    generateDateRange (n + 1) d0 = generateDateRange n d0 ++ [d0 + n] := by
  unfold generateDateRange
  rw [List.range_succ]
  simp

theorem getLast?_generateDateRange_succ (n : Nat) (d0 : Int) :
    (generateDateRange (n + 1) d0).getLast? = some (d0 + n) := by
  rw [generateDateRange_concat]
  simp

/-- JavaScript comparison x < dates[0]; comparing with the undefined head of
an empty array is false. -/
def ltFirst (x : Int) (dates : List Int) : Bool :=
  match dates.head? with
  | some h => decide (x < h)
  | none => false

/-- JavaScript comparison x > dates[dates.length - 1]; comparing with the
undefined last entry of an empty array is false. -/
def gtLast (x : Int) (dates : List Int) : Bool :=
  match dates.getLast? with
  | some l => decide (l < x)
  | none => false

theorem ltFirst_generateDateRange_succ (x : Int) (n : Nat) (d0 : Int) :
    ltFirst x (generateDateRange (n + 1) d0) = decide (x < d0) := by
  unfold ltFirst
  rw [head?_generateDateRange_succ]

theorem gtLast_generateDateRange_succ (x : Int) (n : Nat) (d0 : Int) :
    gtLast x (generateDateRange (n + 1) d0) = decide (d0 + n < x) := by
  unfold gtLast
  rw [getLast?_generateDateRange_succ]

/-- Booking record (src data model): startDate / endDate are day keys with
inclusive start and exclusive end (endDate is the checkout day).  The id that
the booking-ID filter searches as a string (booking.booking_id.toString())
is kept as a list of characters. -/
structure Booking where
  id : Nat
  booking_id : List Char
  resourceId : Nat
  startDate : Int
  endDate : Int
deriving DecidableEq

/-- Booking layout engine of src/components/BookingBlock.jsx (the identical
computation appears in GridBookingCell and in the overlap filter of the
VirtualizedScheduler cellRenderer): subtract one day from endDate, look both
endpoints up in the visible window, decide visibility, and clip the column
span to the window.  Returns the clipped (visibleStartIndex, visibleEndIndex)
pair when the booking is rendered and none when it is hidden. -/
def bookingLayout (b : Booking) (dates : List Int) : Option (Int × Int) :=
  let displayEndDate := b.endDate - 1
  let startIndex := getDateIndex b.startDate dates
  let endIndex := getDateIndex displayEndDate dates
  let bookingStartsBeforeRange := startIndex = -1 ∧ ltFirst b.startDate dates = true
  let bookingEndsAfterRange := endIndex = -1 ∧ gtLast displayEndDate dates = true
  if startIndex ≠ -1 ∨ endIndex ≠ -1 ∨ (bookingStartsBeforeRange ∧ bookingEndsAfterRange) then
    some (max 0 (if startIndex = -1 then 0 else startIndex),
          min ((dates.length : Int) - 1)
            (if endIndex = -1 then (dates.length : Int) - 1 else endIndex))
  else
    none

/-- Legacy booking layout of the BookingBlock variant kept in
src/unnamed/part_003 (also preserved as the commented-out header of
src/components/BookingBlock.jsx): no checkout-day subtraction, and a booking
is hidden only when both raw endpoints are outside the window. -/
def bookingLayoutLegacy (b : Booking) (dates : List Int) : Option (Int × Int) :=
  let startIndex := getDateIndex b.startDate dates
  let endIndex := getDateIndex b.endDate dates
  if startIndex = -1 ∧ endIndex = -1 then
    none
  else
    some (max 0 startIndex, min ((dates.length : Int) - 1) endIndex)

/-- Arithmetic characterization of the booking layout over a generated
window of m+1 consecutive days starting at d0. -/
theorem bookingLayout_eq_generateDateRange (m : Nat) (d0 : Int) (b : Booking) :
    bookingLayout b (generateDateRange (m + 1) d0) =
      if (d0 ≤ b.startDate ∧ b.startDate ≤ d0 + m) ∨
         (d0 ≤ b.endDate - 1 ∧ b.endDate - 1 ≤ d0 + m) ∨
         (b.startDate < d0 ∧ d0 + m < b.endDate - 1) then
        some (if d0 ≤ b.startDate ∧ b.startDate ≤ d0 + m then b.startDate - d0 else 0,
              if d0 ≤ b.endDate - 1 ∧ b.endDate - 1 ≤ d0 + m then b.endDate - 1 - d0 else m)
      else none := by
  simp only [bookingLayout, getDateIndex_generateDateRange, ltFirst_generateDateRange_succ,
    gtLast_generateDateRange_succ, length_generateDateRange, decide_eq_true_eq]
  push_cast
  split_ifs <;>
    first
      | rfl
      | (exfalso; omega)
      | (simp only [Option.some.injEq, Prod.mk.injEq]; constructor <;> omega)

theorem bookingLayout_nil (b : Booking) : bookingLayout b [] = none := by
  simp [bookingLayout, getDateIndex_nil, ltFirst, gtLast]

/-- Claim C1: over a 30-day window D0..D29, a booking with startDate = D0 and
endDate = D5 (checkout on D5) is laid out on the clipped column span 0..4 —
five columns, and column 5 is never part of the span. -/
theorem layout_clipping_five_days (d0 : Int) (b : Booking)
    (h1 : b.startDate = d0) (h2 : b.endDate = d0 + 5) :
    bookingLayout b (generateDateRange 30 d0) = some (0, 4) := by
  rw [show (30 : Nat) = 29 + 1 from rfl, bookingLayout_eq_generateDateRange, h1, h2]
  rw [if_pos (by norm_num)]
  simp only [Option.some.injEq, Prod.mk.injEq]
  constructor <;> split_ifs <;> omega

/-- A concrete five-night booking, checking in on day 0 and out on day 5. -/
def bkFiveDay : Booking :=
  { id := 1, booking_id := ['1'], resourceId := 1, startDate := 0, endDate := 5 }

/-- Witness for C1 at the concrete window starting at day 0. -/
theorem layout_clipping_five_days_witness :
    ((bkFiveDay.startDate = 0 ∧ bkFiveDay.endDate = 0 + 5) ∧
      bookingLayout bkFiveDay (generateDateRange 30 0) = some (0, 4)) :=
  ⟨⟨rfl, rfl⟩, layout_clipping_five_days 0 bkFiveDay rfl rfl⟩

/-- Claim C3: a booking that starts strictly before the 30-day window and
whose endDate lies strictly after the last window day is visible and spans
the full column range 0..29. -/
theorem layout_spans_entire_window (d0 : Int) (b : Booking)
    (h1 : b.startDate < d0) (h2 : d0 + 29 < b.endDate) :
    bookingLayout b (generateDateRange 30 d0) = some (0, 29) := by
  rw [show (30 : Nat) = 29 + 1 from rfl, bookingLayout_eq_generateDateRange]
  rw [if_pos (by omega)]
  simp only [Option.some.injEq, Prod.mk.injEq]
  constructor <;> split_ifs <;> omega

/-- A concrete booking surrounding the whole 30-day window starting at day 0. -/
def bkAround : Booking :=
  { id := 2, booking_id := ['2'], resourceId := 1, startDate := -3, endDate := 40 }

/-- Witness for C3 at the concrete window starting at day 0. -/
theorem layout_spans_entire_window_witness :
    ((bkAround.startDate < 0 ∧ (0 : Int) + 29 < bkAround.endDate) ∧
      bookingLayout bkAround (generateDateRange 30 0) = some (0, 29)) :=
  ⟨⟨by decide, by decide⟩, layout_spans_entire_window 0 bkAround (by decide) (by decide)⟩

/-- Claim C4 (amended): the checkout-aware layout computation reports a
booking invisible whenever its endDate is at or before the first window day
or its startDate is after the last window day. -/
theorem layout_off_window_invisible (d0 : Int) (b : Booking)
    (hlt : b.startDate < b.endDate)
    (h : b.endDate ≤ d0 ∨ d0 + 29 < b.startDate) :
    bookingLayout b (generateDateRange 30 d0) = none := by
  rw [show (30 : Nat) = 29 + 1 from rfl, bookingLayout_eq_generateDateRange]
  rw [if_neg (by omega)]

/-- A concrete booking ending exactly on the first window day of the window
starting at day 0: its checkout day is day 0, so it occupies days -5..-1 only. -/
def bkEndsAtWindowStart : Booking :=
  { id := 3, booking_id := ['3'], resourceId := 1, startDate := -5, endDate := 0 }

/-- Witness for C4's amended theorem at the concrete window starting at day 0. -/
theorem layout_off_window_invisible_witness :
    ((bkEndsAtWindowStart.startDate < bkEndsAtWindowStart.endDate ∧
        (bkEndsAtWindowStart.endDate ≤ 0 ∨ (0 : Int) + 29 < bkEndsAtWindowStart.startDate)) ∧
      bookingLayout bkEndsAtWindowStart (generateDateRange 30 0) = none) :=
  ⟨⟨by decide, Or.inl (by decide)⟩,
    layout_off_window_invisible 0 bkEndsAtWindowStart (by decide) (Or.inl (by decide))⟩

/-- Counterexample to claim C4 as stated over every rendering path: the legacy
BookingBlock of src/unnamed/part_003 renders this same off-window booking
(endDate equal to the first window day) on column 0 instead of hiding it. -/
theorem legacy_renders_booking_ending_at_window_start :
    bkEndsAtWindowStart.startDate < bkEndsAtWindowStart.endDate ∧
    bkEndsAtWindowStart.endDate ≤ 0 ∧
    bookingLayoutLegacy bkEndsAtWindowStart (generateDateRange 30 0) = some (0, 0) := by
  refine ⟨by decide, by decide, ?_⟩
  decide

/-- Claim C2 (amended): in the checkout-aware layout (BookingBlock.jsx,
GridBookingCell and the cellRenderer overlap filter all compute these same
indices), every column of the rendered span lies inside the window and its
day key d0 + j is strictly below the booking's endDate: the checkout day is
never covered. -/
theorem layout_checkout_day_exclusive (n : Nat) (d0 : Int) (b : Booking)
    (hlt : b.startDate < b.endDate) (s e : Int)
    (h : bookingLayout b (generateDateRange n d0) = some (s, e)) :
    0 ≤ s ∧ s ≤ e ∧ e < (n : Int) ∧
      ∀ j : Int, s ≤ j → j ≤ e → d0 + j < b.endDate := by
  cases n with
  | zero =>
    rw [generateDateRange_zero, bookingLayout_nil] at h
    exact absurd h (by simp)
  | succ m =>
    rw [bookingLayout_eq_generateDateRange] at h
    split_ifs at h with hvis hs he he
    all_goals
      simp only [Option.some.injEq, Prod.mk.injEq] at h
      obtain ⟨hs', he'⟩ := h
      push_cast
      refine ⟨by omega, by omega, by omega, ?_⟩
      intro j hj1 hj2
      omega

/-- Witness for C2's amended theorem: the five-night booking on the window
starting at day 0 spans columns 0..4 and each covered day key is below 5. -/
theorem layout_checkout_day_exclusive_witness :
    ((bkFiveDay.startDate < bkFiveDay.endDate ∧
        bookingLayout bkFiveDay (generateDateRange 30 0) = some (0, 4)) ∧
      (0 ≤ (0 : Int) ∧ (0 : Int) ≤ 4 ∧ (4 : Int) < (30 : Nat) ∧
        ∀ j : Int, 0 ≤ j → j ≤ 4 → 0 + j < bkFiveDay.endDate)) :=
  ⟨⟨by decide, by decide⟩,
    layout_checkout_day_exclusive 30 0 bkFiveDay (by decide) 0 4 (by decide)⟩

/-- Counterexample to claim C2 as stated over every rendering path: the legacy
BookingBlock of src/unnamed/part_003 lays the five-night booking out on
columns 0..5, and the day key of column 5 equals the booking's endDate, so the
checkout day is rendered as occupied by that path. -/
theorem legacy_renders_checkout_column :
    bkFiveDay.startDate < bkFiveDay.endDate ∧
    bookingLayoutLegacy bkFiveDay (generateDateRange 30 0) = some (0, 5) ∧
    (generateDateRange 30 0).get? 5 = some bkFiveDay.endDate := by
  refine ⟨by decide, ?_, ?_⟩ <;> decide

/-- Transient selection: resource row plus the dragged date range. -/
structure Selection where
  resourceId : Nat
  startDate : Int
  endDate : Int
deriving DecidableEq

/-- The selection-relevant state of VirtualizedScheduler: the mouseDownRef
flag, the isSelecting flag, the current selection and whether the booking
modal is open. -/
structure SchedState where
  mouseDown : Bool
  isSelecting : Bool
  selection : Option Selection
  modalOpen : Bool
deriving DecidableEq

/-- The global mouse-up handler of src/components/VirtualizedScheduler.jsx
(lines 103-124): a no-op unless a pointer-down was recorded and a selection
exists; otherwise it clears the pointer flags, normalizes the selection by
comparing the window indices of its two dates, and schedules the modal to
open. -/
def onMouseUp (st : SchedState) (dates : List Int) : SchedState :=
  match st.selection with
  | none => st
  | some sel =>
    if st.mouseDown then
      let startIdx := getDateIndex sel.startDate dates
      let endIdx := getDateIndex sel.endDate dates
      { mouseDown := false
        isSelecting := false
        selection := some
          { resourceId := sel.resourceId
            startDate := if startIdx ≤ endIdx then sel.startDate else sel.endDate
            endDate := if startIdx ≤ endIdx then sel.endDate else sel.startDate }
        modalOpen := true }
    else st

/-- Claim C7: when both selection dates are present in the window, pointer-up
normalizes the selection to (min, max) — a backward drag is swapped — and the
resource id is unchanged. -/
theorem mouseUp_normalizes_selection (n : Nat) (d0 : Int) (st : SchedState) (sel : Selection)
    (hmd : st.mouseDown = true) (hsel : st.selection = some sel)
    (hs : d0 ≤ sel.startDate ∧ sel.startDate < d0 + n)
    (he : d0 ≤ sel.endDate ∧ sel.endDate < d0 + n) :
    (onMouseUp st (generateDateRange n d0)).selection = some
      { resourceId := sel.resourceId
        startDate := min sel.startDate sel.endDate
        endDate := max sel.startDate sel.endDate } := by
  unfold onMouseUp
  rw [hsel]
  simp only [hmd, if_true, getDateIndex_generateDateRange, if_pos hs, if_pos he]
  simp only [Selection.mk.injEq, Option.some.injEq]
  refine ⟨trivial, ?_, ?_⟩ <;> split_ifs <;> omega

/-- A concrete backward drag: started on day 10 and dragged back to day 5. -/
def selBackward : Selection := { resourceId := 7, startDate := 10, endDate := 5 }

/-- The scheduler state holding the backward drag while the pointer is down. -/
def stBackward : SchedState :=
  { mouseDown := true, isSelecting := true, selection := some selBackward, modalOpen := false }

/-- Witness for C7: the D10 to D5 drag of the claim normalizes on pointer-up
to startDate = D5, endDate = D10 on the 30-day window starting at day 0. -/
theorem mouseUp_normalizes_selection_witness :
    ((stBackward.mouseDown = true ∧ stBackward.selection = some selBackward ∧
        ((0 : Int) ≤ selBackward.startDate ∧ selBackward.startDate < 0 + (30 : Nat)) ∧
        ((0 : Int) ≤ selBackward.endDate ∧ selBackward.endDate < 0 + (30 : Nat))) ∧
      (onMouseUp stBackward (generateDateRange 30 0)).selection = some
        { resourceId := 7, startDate := 5, endDate := 10 }) :=
  ⟨⟨rfl, rfl, ⟨by decide, by decide⟩, ⟨by decide, by decide⟩⟩,
    mouseUp_normalizes_selection 30 0 stBackward selBackward rfl rfl
      ⟨by decide, by decide⟩ ⟨by decide, by decide⟩⟩

/-- Claim C9: a stray pointer-up — no pointer-down recorded, or no active
selection — leaves the whole state unchanged; in particular no selection is
created or modified and the modal is not opened. -/
theorem mouseUp_stray_is_noop (st : SchedState) (dates : List Int)
    (h : st.mouseDown = false ∨ st.selection = none) :
    onMouseUp st dates = st := by
  unfold onMouseUp
  rcases hsel : st.selection with _ | sel
  · rfl
  · rcases h with hmd | hnone
    · simp [hmd]
    · rw [hsel] at hnone
      exact absurd hnone (by simp)

/-- An idle scheduler state: pointer up, nothing selected, modal closed. -/
def stIdle : SchedState :=
  { mouseDown := false, isSelecting := false, selection := none, modalOpen := false }

/-- Witness for C9: firing pointer-up in the idle state changes nothing. -/
theorem mouseUp_stray_is_noop_witness :
    ((stIdle.mouseDown = false ∨ stIdle.selection = none) ∧
      onMouseUp stIdle (generateDateRange 30 0) = stIdle) :=
  ⟨Or.inl rfl, mouseUp_stray_is_noop stIdle (generateDateRange 30 0) (Or.inl rfl)⟩

/-- Transient drag-relocation state of src/unnamed/part_001. -/
structure DragState where
  isDragging : Bool
  draggedBooking : Option Booking
  dropTarget : Option (Int × Nat)
deriving DecidableEq

/-- The booking-move intent logged by handleBookingDragEnd: the original
booking together with the relocated resource and date span. -/
structure MoveIntent where
  movedBooking : Booking
  resourceId : Nat
  startDate : Int
  endDate : Int
deriving DecidableEq

/-- The reset drag state installed after every completed or abandoned drag. -/
def resetDragState : DragState :=
  { isDragging := false, draggedBooking := none, dropTarget := none }

/-- handleBookingDragEnd of src/unnamed/part_001 (lines 188-218): a no-op
unless a drag with a dragged booking is active; with a resolved drop target it
computes the relocated span — newStart is the target date and newEnd adds the
original duration — and emits the move intent; the drag state is then reset.
On whole-day keys Math.ceil((endDate - startDate) / msPerDay) is exactly the
integer day difference endDate - startDate. -/
def handleBookingDragEnd (ds : DragState) (targetDate : Option Int)
    (targetResourceId : Option Nat) : Option MoveIntent × DragState :=
  match ds.draggedBooking with
  | none => (none, ds)
  | some b =>
    if ds.isDragging then
      match targetDate, targetResourceId with
      | some td, some rid =>
        let duration := b.endDate - b.startDate
        (some { movedBooking := b
                resourceId := rid
                startDate := td
                endDate := td + duration },
          resetDragState)
      | _, _ => (none, resetDragState)
    else (none, ds)

/-- Claim C8: completing a drag over a resolved drop target emits a move
intent whose startDate is the drop date and whose endDate preserves the
exclusive-end duration of the dragged booking. -/
theorem dragEnd_preserves_duration (ds : DragState) (b : Booking)
    (hdrag : ds.isDragging = true) (hb : ds.draggedBooking = some b)
    (_hlt : b.startDate < b.endDate) (td : Int) (rid : Nat) :
    (handleBookingDragEnd ds (some td) (some rid)).1 = some
      { movedBooking := b
        resourceId := rid
        startDate := td
        endDate := td + (b.endDate - b.startDate) } := by
  unfold handleBookingDragEnd
  rw [hb]
  simp [hdrag]

/-- The three-night booking of the claim: startDate = D2, endDate = D5. -/
def bkThreeNight : Booking :=
  { id := 4, booking_id := ['4'], resourceId := 3, startDate := 2, endDate := 5 }

/-- The drag state while bkThreeNight is being dragged. -/
def dsThreeNight : DragState :=
  { isDragging := true, draggedBooking := some bkThreeNight, dropTarget := none }

/-- Witness for C8: relocating the D2..D5 booking to drop target D9 yields
startDate = D9 and endDate = D12. -/
theorem dragEnd_preserves_duration_witness :
    ((dsThreeNight.isDragging = true ∧ dsThreeNight.draggedBooking = some bkThreeNight ∧
        bkThreeNight.startDate < bkThreeNight.endDate) ∧
      (handleBookingDragEnd dsThreeNight (some 9) (some 3)).1 = some
        { movedBooking := bkThreeNight, resourceId := 3, startDate := 9, endDate := 12 }) :=
  ⟨⟨rfl, rfl, by decide⟩,
    dragEnd_preserves_duration dsThreeNight bkThreeNight rfl rfl (by decide) 9 3⟩

/-- JavaScript String.prototype.includes: needle occurs as a contiguous
substring of the haystack. -/
def strIncludes (needle : List Char) : List Char → Bool
  | [] => needle.isEmpty
  | c :: t => needle.isPrefixOf (c :: t) || strIncludes needle t

/-- name.toLowerCase().includes(term.toLowerCase()) from the search filter. -/
def nameMatches (term name : List Char) : Bool :=
  strIncludes (term.map Char.toLower) (name.map Char.toLower)

/-- A leaf resource (a room). -/
structure Resource where
  id : Nat
  name : List Char
deriving DecidableEq

/-- A resource group (a block of rooms) with its expand flag. -/
structure ResourceGroup where
  id : Nat
  name : List Char
  expanded : Bool
  children : List Resource
deriving DecidableEq

/-- A flattened visible row: either a group header carrying its expand flag
or a leaf row tagged with its parent group. -/
inductive VRow where
  | parent (id : Nat) (name : List Char) (expanded : Bool)
  | child (id : Nat) (name : List Char) (parentId : Nat)
deriving DecidableEq

/-- visibleRows of src/components/VirtualizedScheduler.jsx (lines 32-70):
apply the booking-ID filter (restrict children to resources of bookings whose
stringified id contains the filter, force-expand, drop childless groups),
then the search filter (keep groups whose name or some child name matches),
then flatten: a parent row per group and, when expanded, one child row per
child whose name matches the search term (all children when the term is
empty). -/
def visibleRows (resources : List ResourceGroup) (bookings : List Booking)
    (searchTerm selectedBookingId : List Char) : List VRow :=
  let fr1 :=
    if selectedBookingId ≠ [] then
      let matchingBookings := bookings.filter (fun b => strIncludes selectedBookingId b.booking_id)
      let matchingResourceIds := matchingBookings.map (fun b => b.resourceId)
      (resources.map (fun parent =>
          { parent with
            expanded := true
            children := parent.children.filter (fun c => decide (c.id ∈ matchingResourceIds)) })).filter
        (fun parent => decide (parent.children ≠ []))
    else resources
  let fr2 :=
    if searchTerm ≠ [] then
      fr1.filter (fun parent =>
        nameMatches searchTerm parent.name ||
          parent.children.any (fun c => nameMatches searchTerm c.name))
    else fr1
  fr2.flatMap (fun parent =>
    let parentRow := VRow.parent parent.id parent.name parent.expanded
    if parent.expanded = false then [parentRow]
    else
      parentRow ::
        (parent.children.filter (fun c =>
            decide (searchTerm = []) || nameMatches searchTerm c.name)).map
          (fun c => VRow.child c.id c.name parent.id))

/-- The unfiltered flattening of the resource tree (spec section 4.2; this is
also exactly the visibleRows computation of the OptimizedScheduler variant in
src/unnamed/part_002, which has no filters): a parent row per group followed,
when the group is expanded, by one child row per child in order. -/
def unfilteredFlatten (resources : List ResourceGroup) : List VRow :=
  resources.flatMap (fun parent =>
    VRow.parent parent.id parent.name parent.expanded ::
      (if parent.expanded then
        parent.children.map (fun c => VRow.child c.id c.name parent.id)
      else []))

/-- Claim C6: with both filters cleared the visible row list is
element-for-element the unfiltered flattening of the original tree; since
visibleRows is a pure function of (resources, bookings, filters), applying
any filters and then clearing both reproduces exactly this list and the
original tree is never mutated. -/
theorem visibleRows_clear_filters (resources : List ResourceGroup) (bookings : List Booking) :
    visibleRows resources bookings [] [] = unfilteredFlatten resources := by
  unfold visibleRows unfilteredFlatten
  simp only [ne_eq, not_true_eq_false, if_false]
  induction resources with
  | nil => rfl
  | cons p ps ih =>
    rw [List.flatMap_cons, List.flatMap_cons, ih]
    congr 1
    cases hp : p.expanded
    · simp [hp]
    · simp [hp, List.filter_true]

/-- The search term Alpha (mixed case, matching via toLowerCase). -/
def termAlpha : List Char := ['A', 'l', 'p', 'h', 'a']

/-- A child room whose name beta does not contain the search term. -/
def rBeta : Resource := { id := 2, name := ['b', 'e', 't', 'a'] }

/-- An expanded group whose name alpha matches the search term, with the
single non-matching child beta. -/
def gAlpha : ResourceGroup :=
  { id := 1, name := ['a', 'l', 'p', 'h', 'a'], expanded := true, children := [rBeta] }

/-- Counterexample to claim C5: the group name matches the term Alpha
case-insensitively and the group is expanded, yet its child beta does not
appear in the filtered row list — the child-level name filter is applied even
when the group name matched, so the group passthrough of the claim fails. -/
theorem search_drops_child_of_matching_group :
    nameMatches termAlpha gAlpha.name = true ∧ gAlpha.expanded = true ∧
    rBeta ∈ gAlpha.children ∧
    visibleRows [gAlpha] [] termAlpha [] = [VRow.parent 1 gAlpha.name true] ∧
    VRow.child rBeta.id rBeta.name gAlpha.id ∉ visibleRows [gAlpha] [] termAlpha [] := by
  refine ⟨by decide, by decide, by decide, by decide, by decide⟩

/-- A list that is a middle block with some prefix and suffix around it. -/
theorem exists_mid_append {A : Type} (xs ys M : List A) :
    ∃ pre post, xs ++ (M ++ ys) = pre ++ M ++ post :=
  ⟨xs, ys, by rw [List.append_assoc]⟩

/-- Claim C5 (amended): when a group's name matches a non-empty search term
and the group is expanded, the filtered row list contains the group's block —
its parent row followed by exactly those children whose own names match the
term, in original order.  Children whose names do not match the term are
dropped even though the group name matched. -/
theorem search_matching_group_block (resources : List ResourceGroup) (bookings : List Booking)
    (term : List Char) (hterm : term ≠ []) (g : ResourceGroup) (hg : g ∈ resources)
    (hmatch : nameMatches term g.name = true) (hexp : g.expanded = true) :
    ∃ pre post, visibleRows resources bookings term [] =
      pre ++ (VRow.parent g.id g.name g.expanded ::
        (g.children.filter (fun c => nameMatches term c.name)).map
          (fun c => VRow.child c.id c.name g.id)) ++ post := by
  obtain ⟨l1, l2, rfl⟩ := List.append_of_mem hg
  unfold visibleRows
  simp only [ne_eq, not_true_eq_false, if_false, hterm, not_false_eq_true, if_true]
  have hpg : (nameMatches term g.name ||
      g.children.any fun c => nameMatches term c.name) = true := by
    simp [hmatch]
  rw [List.filter_append, List.filter_cons]
  rw [if_pos hpg]
  rw [List.flatMap_append, List.flatMap_cons]
  have hblock :
      (if g.expanded = false then [VRow.parent g.id g.name g.expanded]
       else VRow.parent g.id g.name g.expanded ::
         List.map (fun c => VRow.child c.id c.name g.id)
           (List.filter (fun c => decide False || nameMatches term c.name) g.children)) =
      VRow.parent g.id g.name g.expanded ::
        List.map (fun c => VRow.child c.id c.name g.id)
          (List.filter (fun c => nameMatches term c.name) g.children) := by
    rw [if_neg (by simp [hexp])]
    simp
  rw [hblock]
  exact exists_mid_append _ _ _

/-- Witness for C5's amended theorem on the concrete one-group tree: the
matching expanded group contributes its parent row followed by exactly its
matching children (here none, since beta does not contain Alpha). -/
theorem search_matching_group_block_witness :
    ((termAlpha ≠ [] ∧ gAlpha ∈ [gAlpha] ∧ nameMatches termAlpha gAlpha.name = true ∧
        gAlpha.expanded = true) ∧
      ∃ pre post, visibleRows [gAlpha] [] termAlpha [] =
        pre ++ (VRow.parent gAlpha.id gAlpha.name gAlpha.expanded ::
          (gAlpha.children.filter (fun c => nameMatches termAlpha c.name)).map
            (fun c => VRow.child c.id c.name gAlpha.id)) ++ post) :=
  ⟨⟨by decide, by decide, by decide, by decide⟩,
    search_matching_group_block [gAlpha] [] termAlpha (by decide) gAlpha (by decide)
      (by decide) (by decide)⟩

/-- Every parent row in the list is immediately followed by a child row. -/
def parentsFollowedByChild : List VRow → Bool
  | [] => true
  | VRow.child _ _ _ :: rest => parentsFollowedByChild rest
  | [VRow.parent _ _ _] => false
  | VRow.parent _ _ _ :: VRow.parent _ _ _ :: _ => false
  | VRow.parent _ _ _ :: VRow.child i nm pid :: rest =>
      parentsFollowedByChild (VRow.child i nm pid :: rest)

/-- Pointwise-equal functions give equal flatMaps. -/
theorem flatMap_congr_mem {A B : Type} (l : List A) (f g : A → List B)
    (h : ∀ a ∈ l, f a = g a) : l.flatMap f = l.flatMap g := by
  induction l with
  | nil => rfl
  | cons x xs ih =>
    rw [List.flatMap_cons, List.flatMap_cons, h x (by simp),
      ih (fun a ha => h a (by simp [ha]))]

theorem pfc_children (cs : List Resource) (pid : Nat) (rest : List VRow) :
    parentsFollowedByChild (cs.map (fun c => VRow.child c.id c.name pid) ++ rest) =
      parentsFollowedByChild rest := by
  induction cs with
  | nil => rfl
  | cons c cs ih =>
    simp only [List.map_cons, List.cons_append, parentsFollowedByChild]
    exact ih

theorem pfc_block (p : ResourceGroup) (rest : List VRow) (h : p.children ≠ []) :
    parentsFollowedByChild ((VRow.parent p.id p.name true ::
        p.children.map (fun c => VRow.child c.id c.name p.id)) ++ rest) =
      parentsFollowedByChild rest := by
  cases hc : p.children with
  | nil => exact absurd hc h
  | cons c cs =>
    simp only [hc, List.map_cons, List.cons_append, parentsFollowedByChild]
    exact pfc_children cs p.id rest

theorem pfc_flatMap (l : List ResourceGroup) (h : ∀ p ∈ l, p.children ≠ []) :
    parentsFollowedByChild (l.flatMap (fun p => VRow.parent p.id p.name true ::
      p.children.map (fun c => VRow.child c.id c.name p.id))) = true := by
  induction l with
  | nil => rfl
  | cons p ps ih =>
    rw [List.flatMap_cons, pfc_block p _ (h p (by simp))]
    exact ih (fun q hq => h q (by simp [hq]))

/-- Normal form of visibleRows under a non-empty booking-ID filter and an
empty search term: map the force-expand restriction over the tree, drop
childless groups, then flatten each surviving group into a parent row
followed by all of its (restricted) children. -/
theorem visibleRows_bid_only (res : List ResourceGroup) (bks : List Booking)
    (bid : List Char) (hbid : bid ≠ []) :
    visibleRows res bks [] bid =
      ((res.map (fun p =>
          { p with
            expanded := true
            children := p.children.filter (fun (c : Resource) =>
              decide (c.id ∈ (bks.filter (fun (b : Booking) => strIncludes bid b.booking_id)).map
                (fun (b : Booking) => b.resourceId))) })).filter
        (fun p => decide (p.children ≠ []))).flatMap
        (fun p => VRow.parent p.id p.name true ::
          p.children.map (fun c => VRow.child c.id c.name p.id)) := by
  unfold visibleRows
  simp only [ne_eq, hbid, not_false_eq_true, if_true, not_true_eq_false, if_false]
  apply flatMap_congr_mem
  intro p hp
  rw [List.mem_filter] at hp
  obtain ⟨hp1, _⟩ := hp
  rw [List.mem_map] at hp1
  obtain ⟨q, _, rfl⟩ := hp1
  simp [List.filter_true]

/-- Claim C10: under a non-empty booking-ID filter (and no search term) the
visible row list satisfies: every parent row is expanded; every parent row is
immediately followed by at least one child row; every child row belongs to a
resource referenced by a booking whose stringified id contains the filter;
and if no booking matches, the list is empty. -/
theorem bookingIdFilter_structure (res : List ResourceGroup) (bks : List Booking)
    (bid : List Char) (hbid : bid ≠ []) :
    (∀ i nm e, VRow.parent i nm e ∈ visibleRows res bks [] bid → e = true) ∧
    parentsFollowedByChild (visibleRows res bks [] bid) = true ∧
    (∀ i nm pid, VRow.child i nm pid ∈ visibleRows res bks [] bid →
      ∃ b ∈ bks, strIncludes bid b.booking_id = true ∧ b.resourceId = i) ∧
    ((∀ b ∈ bks, strIncludes bid b.booking_id = false) → visibleRows res bks [] bid = []) := by
  rw [visibleRows_bid_only res bks bid hbid]
  refine ⟨?_, ?_, ?_, ?_⟩
  · intro i nm e hmem
    rw [List.mem_flatMap] at hmem
    obtain ⟨p, _, hrow⟩ := hmem
    rw [List.mem_cons] at hrow
    rcases hrow with heq | hmap
    · simp only [VRow.parent.injEq] at heq
      exact heq.2.2
    · rw [List.mem_map] at hmap
      obtain ⟨c, _, hc⟩ := hmap
      exact absurd hc (by simp)
  · apply pfc_flatMap
    intro p hp
    rw [List.mem_filter] at hp
    simpa using hp.2
  · intro i nm pid hmem
    rw [List.mem_flatMap] at hmem
    obtain ⟨p, hp, hrow⟩ := hmem
    rw [List.mem_cons] at hrow
    rcases hrow with heq | hmap
    · exact absurd heq (by simp)
    · rw [List.mem_map] at hmap
      obtain ⟨c, hc, hceq⟩ := hmap
      rw [List.mem_filter] at hp
      obtain ⟨hp1, _⟩ := hp
      rw [List.mem_map] at hp1
      obtain ⟨q, _, rfl⟩ := hp1
      have hc' : c ∈ q.children.filter (fun (c : Resource) =>
          decide (c.id ∈ (bks.filter (fun (b : Booking) => strIncludes bid b.booking_id)).map
            (fun (b : Booking) => b.resourceId))) := hc
      rw [List.mem_filter] at hc'
      obtain ⟨_, hcid⟩ := hc'
      rw [decide_eq_true_eq, List.mem_map] at hcid
      obtain ⟨b, hb, hbid'⟩ := hcid
      rw [List.mem_filter] at hb
      refine ⟨b, hb.1, hb.2, ?_⟩
      have : c.id = i := by
        have := hceq
        simp only [VRow.child.injEq] at this
        exact this.1
      rw [hbid', this]
  · intro hnone
    have hflt : bks.filter (fun (b : Booking) => strIncludes bid b.booking_id) = [] :=
      List.filter_eq_nil_iff.mpr (by intro b hb; simp [hnone b hb])
    have houter : (res.map (fun p =>
        { p with
          expanded := true
          children := p.children.filter (fun (c : Resource) =>
            decide (c.id ∈ (bks.filter (fun (b : Booking) => strIncludes bid b.booking_id)).map
              (fun (b : Booking) => b.resourceId))) })).filter
        (fun p => decide (p.children ≠ [])) = [] := by
      apply List.filter_eq_nil_iff.mpr
      intro p hp
      rw [List.mem_map] at hp
      obtain ⟨q, _, rfl⟩ := hp
      simp [hflt]
    rw [houter]
    rfl

/-- Booking-ID filter string 42. -/
def bidW : List Char := ['4', '2']

/-- A booking whose stringified id 342 contains the filter 42. -/
def bkW : Booking :=
  { id := 10, booking_id := ['3', '4', '2'], resourceId := 2, startDate := 0, endDate := 1 }

/-- A collapsed group with one referenced child and one unreferenced child. -/
def gW : ResourceGroup :=
  { id := 5, name := ['g'], expanded := false,
    children := [{ id := 2, name := ['r', '2'] }, { id := 9, name := ['r', '9'] }] }

/-- Witness for C10 on the concrete one-group tree and one matching booking. -/
theorem bookingIdFilter_structure_witness :
    (bidW ≠ []) ∧
    ((∀ i nm e, VRow.parent i nm e ∈ visibleRows [gW] [bkW] [] bidW → e = true) ∧
      parentsFollowedByChild (visibleRows [gW] [bkW] [] bidW) = true ∧
      (∀ i nm pid, VRow.child i nm pid ∈ visibleRows [gW] [bkW] [] bidW →
        ∃ b ∈ [bkW], strIncludes bidW b.booking_id = true ∧ b.resourceId = i) ∧
      ((∀ b ∈ [bkW], strIncludes bidW b.booking_id = false) →
        visibleRows [gW] [bkW] [] bidW = [])) :=
  ⟨by decide, bookingIdFilter_structure [gW] [bkW] bidW (by decide)⟩
